import Mathlib

/-!
Shallow embedding of the video-editor mask-cutout pipeline
(source: scripts/cutout.py) and proofs of its specified properties.

Images are embedded as total functions from pixel coordinates to values,
with the height and width passed explicitly; a grayscale confidence map or
mask is Nat-valued (uint8 range 0..255), and float-valued buffers from the
source are embedded exactly as rational numbers.
-/

/-- One iteration of the loop body of erode_mask (source: scripts/cutout.py,
lines 54-64).  The four shifted copies come from np.roll, which wraps
around, and the border rows and columns are then cleared unconditionally. -/
def erode_step (H W : Nat) (b : Nat → Nat → Bool) : Nat → Nat → Bool :=
  fun i j =>
    if i = 0 ∨ i = H - 1 ∨ j = 0 ∨ j = W - 1 then false
    else b i j && b ((i + 1) % H) j && b ((i + H - 1) % H) j
           && b i ((j + 1) % W) && b i ((j + W - 1) % W)

/-- Binary erosion with a given iteration count (source: scripts/cutout.py,
function erode_mask).  Zero iterations leaves the mask unchanged. -/
def erode_mask (H W : Nat) (b : Nat → Nat → Bool) : Nat → (Nat → Nat → Bool)
  | 0 => b
  | k + 1 => erode_step H W (erode_mask H W b k)

/-- Hard threshold of a raw confidence map at 180 (source: scripts/cutout.py,
line 80: mask_array > 180). -/
def binarize (c : Nat → Nat → Nat) : Nat → Nat → Bool :=
  fun i j => decide (180 < c i j)

/-- Conversion of a binary mask to 0/255 gray values (source:
scripts/cutout.py, line 83: eroded.astype(uint8) * 255). -/
def to_gray (b : Nat → Nat → Bool) : Nat → Nat → ℚ :=
  fun i j => if b i j then 255 else 0

/-- Modelled from the spec: unnormalized integer weights of a discrete
Gaussian kernel with standard deviation 1.5 (the blur radius of
scripts/cutout.py, line 84, whose implementation lives in the external
imaging library and is not part of this repository).  The weight at offset d
approximates 10000 * exp(-d^2 / (2 * 1.5^2)); support is cut at |d| = 3. -/
def gauss_weight : Nat → ℚ
  | 0 => 10000
  | 1 => 8007
  | 2 => 4111
  | 3 => 1353
  | _ => 0

/-- Sum of the eleven kernel weights: 10000 + 2 * (8007 + 4111 + 1353). -/
def kernel_total : ℚ := 36942

/-- Kernel support offsets, in scan order. -/
def kernel_offsets : List Int := [-3, -2, -1, 0, 1, 2, 3]

/-- Modelled from the spec: index clamping (edge replication) used by the
separable blur at the image border. -/
def clamp_index (m : Nat) (t : Int) : Nat :=
  if t < 0 then 0 else if (m : Int) - 1 ≤ t then m - 1 else t.toNat

/-- Modelled from the spec: horizontal pass of the separable Gaussian blur. -/
def blur_h (W : Nat) (g : Nat → Nat → ℚ) : Nat → Nat → ℚ :=
  fun i j =>
    (kernel_offsets.foldl
      (fun s d => s + gauss_weight d.natAbs * g i (clamp_index W ((j : Int) + d))) 0)
      / kernel_total

/-- Modelled from the spec: vertical pass of the separable Gaussian blur. -/
def blur_v (H : Nat) (g : Nat → Nat → ℚ) : Nat → Nat → ℚ :=
  fun i j =>
    (kernel_offsets.foldl
      (fun s d => s + gauss_weight d.natAbs * g (clamp_index H ((i : Int) + d)) j) 0)
      / kernel_total

/-- Modelled from the spec: the separable Gaussian blur of radius 1.5 applied
by the tightener (spec 4.1 step 3), horizontal pass then vertical pass. -/
def gaussian_blur (H W : Nat) (g : Nat → Nat → ℚ) : Nat → Nat → ℚ :=
  blur_v H (blur_h W g)

/-- Modelled from the spec: rounding of the blurred value back to a uint8
sample, round-half-up on the nonnegative range. -/
def to_uint8 (q : ℚ) : Nat := (⌊q + 1 / 2⌋).toNat

/-- Mask tightening with an explicit erosion iteration count: threshold at
180, erode, blur, requantize (source: scripts/cutout.py, function
tighten_mask; the iteration count is the erosionIterations option of the
spec's PipelineConfig). -/
def tighten_with (H W : Nat) (its : Nat) (c : Nat → Nat → Nat) : Nat → Nat → Nat :=
  fun i j => to_uint8 (gaussian_blur H W (to_gray (erode_mask H W (binarize c) its)) i j)

/-- Mask tightening as the source fixes it, with two erosion iterations
(source: scripts/cutout.py, line 81: erode_mask(binary, iterations=2)). -/
def tighten_mask (H W : Nat) (c : Nat → Nat → Nat) : Nat → Nat → Nat :=
  tighten_with H W 2 c

/-- Per-frame pass-1 mask production (source: scripts/cutout.py, lines
283-288): tighten the raw confidence map, then invert it pointwise as
255 - v when the removePerson mode is selected. -/
def frame_mask (H W : Nat) (c : Nat → Nat → Nat) (invert : Bool) : Nat → Nat → Nat :=
  if invert then fun i j => 255 - tighten_mask H W c i j else tighten_mask H W c

/-- Mean absolute difference of two grayscale frames (source:
scripts/cutout.py, line 118: np.mean(np.abs(prev - curr))). -/
def mad (H W : Nat) (a b : Nat → Nat → ℚ) : ℚ :=
  ((List.range H).foldl
    (fun s i => (List.range W).foldl (fun t j => t + |a i j - b i j|) s) 0)
    / (H * W)

/-- Scene-cut detection (source: scripts/cutout.py, function
detect_scene_changes).  Index 0 is always a boundary; index i >= 1 is a
boundary when the mean absolute luminance difference between frames i-1 and
i exceeds the threshold.  The boundary set is returned as its ascending
enumeration, the order the downstream smoother sorts it into. -/
def detect_scene_changes (H W n : Nat) (lum : Nat → Nat → Nat → ℚ) (thr : ℚ) : List Nat :=
  0 :: (((List.range (n - 1)).map (· + 1)).filter
    (fun i => decide (thr < mad H W (lum (i - 1)) (lum i))))

/-- Scene start for a frame index: the last boundary in list order that is
at most idx, with 0 when none is (source: scripts/cutout.py, lines 129-132). -/
def scene_start (idx : Nat) (bs : List Nat) : Nat :=
  bs.foldl (fun s b => if b ≤ idx then b else s) 0

/-- Scene end for a frame index: the first boundary exceeding idx, with the
frame count when none does (source: scripts/cutout.py, lines 133-137). -/
def scene_end (idx : Nat) (bs : List Nat) (n : Nat) : Nat :=
  match bs.find? (fun b => decide (idx < b)) with
  | some b => b
  | none => n

/-- The half-open scene range of a frame index (source: scripts/cutout.py,
function scene_range). -/
def scene_range (idx : Nat) (bs : List Nat) (n : Nat) : Nat × Nat :=
  (scene_start idx bs, scene_end idx bs n)

/-- The neighbor offsets and their blend weights, in the iteration order of
the source's dict (source: scripts/cutout.py, line 158). -/
def smoothing_weights : List (Int × ℚ) := [(-1, 0.15), (0, 0.7), (1, 0.15)]

/-- Whether the neighbor at a given offset is kept in the blend for frame i:
the source skips it when it falls before the scene start, at or past the
scene end, below 0, or at or past the frame count (source: scripts/cutout.py,
line 170). -/
def keep_offset (i n : Nat) (r : Nat × Nat) (o : Int) : Bool :=
  !(decide ((i : Int) + o < (r.1 : Int)) || decide ((r.2 : Int) ≤ (i : Int) + o)
    || decide ((i : Int) + o < 0) || decide ((n : Int) ≤ (i : Int) + o))

/-- The weighted offsets actually included in the blend of frame i. -/
def included_offsets (i n : Nat) (bs : List Nat) : List (Int × ℚ) :=
  smoothing_weights.filter (fun p => keep_offset i n (scene_range i bs n) p.1)

/-- Sum of the weights actually used for frame i (source: scripts/cutout.py,
accumulator total_w). -/
def total_weight (i n : Nat) (bs : List Nat) : ℚ :=
  (included_offsets i n bs).foldl (fun s p => s + p.2) 0

/-- The weighted pixel sum over the included neighbors (source:
scripts/cutout.py, accumulator blended_sum). -/
def blended_value (n : Nat) (bs : List Nat) (m : Nat → Nat → Nat → Nat)
    (i x y : Nat) : ℚ :=
  (included_offsets i n bs).foldl
    (fun s p => s + ((m ((i : Int) + p.1).toNat x y : Nat) : ℚ) * p.2) 0

/-- The degenerate-window fallback test of the smoother (source:
scripts/cutout.py, line 180: blended_sum is None or total_w == 0). -/
def used_fallback (i n : Nat) (bs : List Nat) : Bool :=
  (included_offsets i n bs).isEmpty || decide (total_weight i n bs = 0)

/-- One smoothed output pixel (source: scripts/cutout.py, function
apply_temporal_smoothing): either the raw tight mask copied unchanged in the
fallback branch, or the renormalized blend clipped to [0, 255] and truncated
to a uint8 sample. -/
def smoothed_pixel (n : Nat) (bs : List Nat) (m : Nat → Nat → Nat → Nat)
    (i x y : Nat) : Nat :=
  if used_fallback i n bs then m i x y
  else (⌊min (255 : ℚ) (max 0 (blended_value n bs m i x y / total_weight i n bs))⌋).toNat

/-- Outcome of a whole pipeline run: the smoothed mask sequence on success,
or a process exit code together with the diagnostic line on failure. -/
inductive CutoutResult where
  | ok (masks : Nat → Nat → Nat → Nat)
  | fail (exitCode : Nat) (msg : String)

/-- Pass 1 of the orchestrator over the first k frames (source:
scripts/cutout.py, lines 264-293): each frame is segmented by the oracle and
tightened; the first oracle failure aborts the pass, carrying the failing
frame index. -/
def pass_one (H W : Nat) (oracle : Nat → Except String (Nat → Nat → Nat))
    (invert : Bool) : Nat → Except (Nat × String) (List (Nat → Nat → Nat))
  | 0 => Except.ok []
  | k + 1 =>
    match pass_one H W oracle invert k with
    | Except.error p => Except.error p
    | Except.ok acc =>
      match oracle k with
      | Except.error e => Except.error (k, e)
      | Except.ok c => Except.ok (acc ++ [frame_mask H W c invert])

/-- The orchestrated run over n frames (source: scripts/cutout.py, function
process_cutout): pass 1 over every frame, then scene detection, then
temporal smoothing when there is more than one frame; an oracle failure at
frame i exits with code 1 and the source's diagnostic line, which reports
the 1-based frame index, before scene detection or pass 2 can run. -/
def process_cutout (H W n : Nat) (oracle : Nat → Except String (Nat → Nat → Nat))
    (lum : Nat → Nat → Nat → ℚ) (invert : Bool) (thr : ℚ) : CutoutResult :=
  match pass_one H W oracle invert n with
  | Except.error p =>
      CutoutResult.fail 1
        ("ERROR: Frame " ++ toString (p.1 + 1) ++ "/" ++ toString n
          ++ " processing failed: " ++ p.2)
  | Except.ok tights =>
      let bs := detect_scene_changes H W n lum thr
      if 1 < n then
        CutoutResult.ok (smoothed_pixel n bs (fun j => tights.getD j (fun _ _ => 0)))
      else
        CutoutResult.ok (fun _ x y => tights.getD 0 (fun _ _ => 0) x y)

/-! Concrete fixtures used by witnesses and counterexamples. -/

/-- A 7x7 confidence map that is 255 everywhere. -/
def conf_full : Nat → Nat → Nat := fun _ _ => 255

/-- A 9x9 confidence map: rows 0-6 at 255, rows 7-8 at 0. -/
def conf_band : Nat → Nat → Nat := fun i _ => if i ≤ 6 then 255 else 0

/-- An everywhere-true binary mask. -/
def mask_true : Nat → Nat → Bool := fun _ _ => true

/-- Tight-mask sequence whose frame 0 is constant 255 and whose other frames
are constant 0. -/
def masks_step : Nat → Nat → Nat → Nat := fun j _ _ => if j = 0 then 255 else 0

/-- Tight-mask sequence constant 100 on every frame. -/
def masks_hundred : Nat → Nat → Nat → Nat := fun _ _ _ => 100

/-- Tight-mask sequence: frame 0 constant 10, other frames constant 20. -/
def masks_one : Nat → Nat → Nat → Nat := fun j _ _ => if j = 0 then 10 else 20

/-- Tight-mask sequence: frame 0 constant 99, other frames constant 20. -/
def masks_two : Nat → Nat → Nat → Nat := fun j _ _ => if j = 0 then 99 else 20

/-- Two-frame 1x1 luminance sequence with a hard cut between the frames. -/
def lum_cut : Nat → Nat → Nat → ℚ := fun f _ _ => if f = 0 then 0 else 255

/-- Constant-zero luminance sequence. -/
def lum_zero : Nat → Nat → Nat → ℚ := fun _ _ _ => 0

/-- Oracle that fails on frame 1 with message boom and succeeds elsewhere. -/
def oracle_boom : Nat → Except String (Nat → Nat → Nat) :=
  fun j => if j = 1 then Except.error "boom" else Except.ok fun _ _ => 0

/-! Helper lemmas about erosion. -/

/-- A pixel surviving one erosion step was set in the input mask. -/
lemma erode_step_subset (H W : Nat) (b : Nat → Nat → Bool) (i j : Nat)
    (h : erode_step H W b i j = true) : b i j = true := by
  unfold erode_step at h
  split at h
  · exact absurd h (by simp)
  · simp only [Bool.and_eq_true] at h
    exact h.1.1.1.1

/-- A pixel surviving k erosion iterations was set in the input mask. -/
lemma erode_mask_subset (H W : Nat) (b : Nat → Nat → Bool) (k i j : Nat)
    (h : erode_mask H W b k i j = true) : b i j = true := by
  induction k with
  | zero => exact h
  | succ m ih => exact ih (erode_step_subset H W (erode_mask H W b m) i j h)

/-- Any pixel of the once-more-eroded mask is a pixel of the previous one. -/
lemma erode_mask_succ_subset (H W : Nat) (b : Nat → Nat → Bool) (k i j : Nat)
    (h : erode_mask H W b (k + 1) i j = true) : erode_mask H W b k i j = true :=
  erode_step_subset H W (erode_mask H W b k) i j h

/-! Helper lemmas about scene ranges. -/

/-- The scene-start fold never exceeds the queried index when its
accumulator does not. -/
lemma scene_fold_le (idx : Nat) :
    ∀ (l : List Nat) (init : Nat), init ≤ idx →
      l.foldl (fun s b => if b ≤ idx then b else s) init ≤ idx := by
  intro l
  induction l with
  | nil => intro init h; exact h
  | cons b t ih =>
      intro init h
      simp only [List.foldl_cons]
      by_cases hb : b ≤ idx
      · rw [if_pos hb]; exact ih b hb
      · rw [if_neg hb]; exact ih init h

/-- The scene start of a frame never exceeds the frame index. -/
lemma scene_start_le (idx : Nat) (bs : List Nat) : scene_start idx bs ≤ idx :=
  scene_fold_le idx bs 0 (Nat.zero_le idx)

/-- The scene-start fold keeps a lower bound that holds of its accumulator
and of every list element. -/
lemma scene_fold_lower (idx x : Nat) :
    ∀ (l : List Nat) (init : Nat), (∀ y ∈ l, x ≤ y) → x ≤ init →
      x ≤ l.foldl (fun s b => if b ≤ idx then b else s) init := by
  intro l
  induction l with
  | nil => intro init _ h; exact h
  | cons b t ih =>
      intro init hall h
      simp only [List.foldl_cons]
      refine ih _ (fun y hy => hall y (List.mem_cons_of_mem b hy)) ?_
      by_cases hb : b ≤ idx
      · rw [if_pos hb]; exact hall b (List.mem_cons_self b t)
      · rw [if_neg hb]; exact h

/-- A sorted boundary at or before the queried index bounds the scene start
from below. -/
lemma le_scene_start (idx x : Nat) :
    ∀ (bs : List Nat), List.Pairwise (· < ·) bs → x ∈ bs → x ≤ idx →
      ∀ init : Nat, x ≤ bs.foldl (fun s b => if b ≤ idx then b else s) init := by
  intro bs
  induction bs with
  | nil => intro _ hx; exact absurd hx (List.not_mem_nil x)
  | cons b t ih =>
      intro hpw hx hxi init
      rcases List.mem_cons.1 hx with rfl | hxt
      · simp only [List.foldl_cons, if_pos hxi]
        exact scene_fold_lower idx x t x
          (fun y hy => Nat.le_of_lt ((List.pairwise_cons.1 hpw).1 y hy)) le_rfl
      · simp only [List.foldl_cons]
        exact ih (List.pairwise_cons.1 hpw).2 hxt hxi _

/-- The scene start of a sorted boundary list is bounded below by any
boundary at or before the index. -/
lemma le_scene_start' (idx x : Nat) (bs : List Nat)
    (hpw : List.Pairwise (· < ·) bs) (hx : x ∈ bs) (hxi : x ≤ idx) :
    x ≤ scene_start idx bs :=
  le_scene_start idx x bs hpw hx hxi 0

/-- The scene end of a frame strictly exceeds the frame index whenever the
index is in bounds. -/
lemma lt_scene_end (idx : Nat) (bs : List Nat) (n : Nat) (h : idx < n) :
    idx < scene_end idx bs n := by
  unfold scene_end
  cases hf : bs.find? (fun b => decide (idx < b)) with
  | none => exact h
  | some b => simpa using List.find?_some hf

/-! Claim theorems. -/

/-- Claim C9: erosion at zero iterations is the identity on the binary
mask, so no border clearing happens when the iteration count is 0. -/
theorem erode_zero_iterations_identity (H W : Nat) (b : Nat → Nat → Bool) :
    erode_mask H W b 0 = b := rfl

/-- Claim C10: erosion only shrinks the mask pointwise: a pixel set after
k+1 iterations was set after k iterations, and a pixel set after k
iterations was set in the input mask. -/
theorem erode_pointwise_shrinking (H W : Nat) (b : Nat → Nat → Bool) (k i j : Nat) :
    (erode_mask H W b (k + 1) i j = true → erode_mask H W b k i j = true) ∧
    (erode_mask H W b k i j = true → b i j = true) :=
  ⟨erode_mask_succ_subset H W b k i j, erode_mask_subset H W b k i j⟩

/-- Witness for C10 at a concrete input: the all-true 5x5 mask still has its
center pixel after one and after two erosion iterations. -/
theorem erode_pointwise_shrinking_wit :
    erode_mask 5 5 mask_true 1 2 2 = true ∧ mask_true 2 2 = true :=
  ⟨(erode_pointwise_shrinking 5 5 mask_true 1 2 2).1 (by decide),
   (erode_pointwise_shrinking 5 5 mask_true 1 2 2).2 (by decide)⟩

unseal Rat.add Rat.mul Rat.inv Rat.sub Rat.ofScientific in
/-- Claim C4, counterexample: with the source's two erosion iterations (so
erosionIterations is at least 1), the all-255 7x7 confidence map yields a
tightened mask that is nonzero at border pixel (0, 3): the Gaussian blur
spreads interior mass back into the cleared border, so the full
threshold-erode-blur output is not 0 on the outermost row. -/
theorem tighten_border_zero_cex :
    1 ≤ 2 ∧ tighten_mask 7 7 conf_full 0 3 ≠ 0 := by decide

/-- Claim C4, amended: with at least one erosion iteration the eroded
binary mask, i.e. the tightener's intermediate mask just before the
Gaussian blur, is 0 at every pixel of the outermost rows and columns. -/
theorem erode_border_zero (H W : Nat) (c : Nat → Nat → Nat) (k i j : Nat)
    (hk : 1 ≤ k) (hi : i < H) (hj : j < W)
    (hb : i = 0 ∨ i = H - 1 ∨ j = 0 ∨ j = W - 1) :
    to_gray (erode_mask H W (binarize c) k) i j = 0 := by
  cases k with
  | zero => exact absurd hk (by omega)
  | succ m =>
      show to_gray (erode_step H W (erode_mask H W (binarize c) m)) i j = 0
      unfold to_gray erode_step
      rw [if_pos hb]
      rfl

/-- Witness for the amended C4: one erosion iteration of the 3x3 all-255
map clears the top border pixel (0, 1). -/
theorem erode_border_zero_wit :
    to_gray (erode_mask 3 3 (binarize conf_full) 1) 0 1 = 0 :=
  erode_border_zero 3 3 conf_full 1 0 1 (by decide) (by decide) (by decide)
    (Or.inl rfl)

unseal Rat.add Rat.mul Rat.inv Rat.sub Rat.ofScientific in
/-- Claim C5, counterexample: on the 9x9 band map whose rows 7 and 8 are 0,
the tightened mask at pixel (7, 4) exceeds its pre-erosion binarized value:
the pixel's confidence (0) is at or below the threshold, yet the blur gives
the tightened output a positive value there. -/
theorem tighten_superset_reduction_cex :
    ¬ (tighten_mask 9 9 conf_band 7 4 ≤ to_gray (binarize conf_band) 7 4) := by
  decide

/-- Claim C5, amended: the erosion stage is a superset reduction — every
pixel still set after any number of erosion iterations of the binarized map
had confidence strictly above the 180 threshold; the final blurred output,
however, can be positive at below-threshold pixels near the kept region. -/
theorem erode_subset_threshold (H W : Nat) (c : Nat → Nat → Nat) (k i j : Nat)
    (h : erode_mask H W (binarize c) k i j = true) : 180 < c i j := by
  have hb := erode_mask_subset H W (binarize c) k i j h
  simpa [binarize] using hb

/-- Witness for the amended C5: the center pixel of the all-255 7x7 map
survives both erosion iterations and indeed has confidence above 180. -/
theorem erode_subset_threshold_wit : 180 < conf_full 3 3 :=
  erode_subset_threshold 7 7 conf_full 2 3 3 (by decide)

/-- Claim C3: polarity invariant — the removePerson-mode tight mask equals
255 minus the removeBg-mode tight mask at every pixel, because the source
inverts the already-tightened mask pointwise. -/
theorem tighten_invert_polarity (H W : Nat) (c : Nat → Nat → Nat) (i j : Nat) :
    frame_mask H W c true i j = 255 - frame_mask H W c false i j := rfl

/-- The detector's boundary list is strictly ascending. -/
lemma detect_scene_changes_pairwise (H W n : Nat) (lum : Nat → Nat → Nat → ℚ)
    (thr : ℚ) : List.Pairwise (· < ·) (detect_scene_changes H W n lum thr) := by
  unfold detect_scene_changes
  refine List.pairwise_cons.2 ⟨fun x hx => ?_, ?_⟩
  · rcases List.mem_map.1 (List.mem_of_mem_filter hx) with ⟨a, _, rfl⟩
    exact Nat.succ_pos a
  · refine List.Pairwise.filter _ (List.Pairwise.map _ ?_ (List.pairwise_lt_range (n - 1)))
    exact fun a b h => Nat.add_lt_add_right h 1

/-- Every detected boundary is below the frame count when at least one
frame exists. -/
lemma detect_scene_changes_bound (H W n : Nat) (lum : Nat → Nat → Nat → ℚ)
    (thr : ℚ) (hn : 1 ≤ n) :
    ∀ b ∈ detect_scene_changes H W n lum thr, b < n := by
  intro b hb
  unfold detect_scene_changes at hb
  rcases List.mem_cons.1 hb with rfl | hb
  · exact hn
  · rcases List.mem_map.1 (List.mem_of_mem_filter hb) with ⟨a, ha, rfl⟩
    have := List.mem_range.1 ha
    omega

/-- Claim C6: for any sequence of at least one frame, the detected boundary
set contains index 0 (hence is non-empty), only holds indices below the
frame count, is strictly ascending in its enumeration, and is exactly the
single boundary 0 for a one-frame input. -/
theorem detect_boundary_shape (H W n : Nat) (lum : Nat → Nat → Nat → ℚ)
    (thr : ℚ) (hn : 1 ≤ n) :
    0 ∈ detect_scene_changes H W n lum thr ∧
    (∀ b ∈ detect_scene_changes H W n lum thr, b < n) ∧
    List.Pairwise (· < ·) (detect_scene_changes H W n lum thr) ∧
    (n = 1 → detect_scene_changes H W n lum thr = [0]) := by
  refine ⟨List.mem_cons_self 0 _, detect_scene_changes_bound H W n lum thr hn,
    detect_scene_changes_pairwise H W n lum thr, ?_⟩
  rintro rfl
  rfl

/-- Witness for C6 on a concrete one-frame input. -/
theorem detect_boundary_shape_wit :
    0 ∈ detect_scene_changes 1 1 1 lum_zero 25 ∧
    (∀ b ∈ detect_scene_changes 1 1 1 lum_zero 25, b < 1) ∧
    List.Pairwise (· < ·) (detect_scene_changes 1 1 1 lum_zero 25) ∧
    (1 = 1 → detect_scene_changes 1 1 1 lum_zero 25 = [0]) :=
  detect_boundary_shape 1 1 1 lum_zero 25 (by decide)

/-- The inclusion test of a neighbor offset, spelled arithmetically. -/
lemma keep_offset_true_iff (i n : Nat) (r : Nat × Nat) (o : Int) :
    keep_offset i n r o = true ↔
      ((r.1 : Int) ≤ (i : Int) + o ∧ (i : Int) + o < (r.2 : Int) ∧
        0 ≤ (i : Int) + o ∧ (i : Int) + o < (n : Int)) := by
  simp only [keep_offset, Bool.not_eq_true', Bool.or_eq_false_iff,
    decide_eq_false_iff_not, not_lt, not_le]
  omega

/-- Claim C8: for a boundary list containing 0 with all entries in bounds,
every in-bounds frame lies inside its own scene range, the offset-0
neighbor (the frame itself, weight 0.70) is always included in the blend,
the used weights sum to at least 0.70, and the smoother's degenerate
copy-the-raw-mask fallback branch is never taken. -/
theorem smoother_fallback_unreachable (n : Nat) (bs : List Nat) (i : Nat)
    (h0 : 0 ∈ bs) (hlt : ∀ b ∈ bs, b < n) (hi : i < n) :
    (scene_range i bs n).1 ≤ i ∧ i < (scene_range i bs n).2 ∧
    ((0 : Int), (0.7 : ℚ)) ∈ included_offsets i n bs ∧
    (0.7 : ℚ) ≤ total_weight i n bs ∧
    used_fallback i n bs = false := by
  have h1 : (scene_range i bs n).1 ≤ i := scene_start_le i bs
  have h2 : i < (scene_range i bs n).2 := lt_scene_end i bs n hi
  have hk0 : keep_offset i n (scene_range i bs n) 0 = true := by
    rw [keep_offset_true_iff]
    omega
  have hmem : ((0 : Int), (0.7 : ℚ)) ∈ included_offsets i n bs :=
    List.mem_filter.2 ⟨by simp [smoothing_weights], by simpa using hk0⟩
  have hw : (0.7 : ℚ) ≤ total_weight i n bs := by
    unfold total_weight included_offsets smoothing_weights
    rcases hk1 : keep_offset i n (scene_range i bs n) (-1) <;>
      rcases hk2 : keep_offset i n (scene_range i bs n) 1 <;>
        simp [List.filter_cons, hk0, hk1, hk2] <;> norm_num
  refine ⟨h1, h2, hmem, hw, ?_⟩
  have hne : included_offsets i n bs ≠ [] := List.ne_nil_of_mem hmem
  simp only [used_fallback, Bool.or_eq_false_iff, List.isEmpty_eq_false,
    decide_eq_false_iff_not]
  exact ⟨hne, by linarith⟩

/-- Witness for C8 at a concrete input: a single frame with boundary list
[0] lies in its scene, keeps its own weight, and avoids the fallback. -/
theorem smoother_fallback_unreachable_wit :
    (scene_range 0 [0] 1).1 ≤ 0 ∧ 0 < (scene_range 0 [0] 1).2 ∧
    ((0 : Int), (0.7 : ℚ)) ∈ included_offsets 0 1 [0] ∧
    (0.7 : ℚ) ≤ total_weight 0 1 [0] ∧
    used_fallback 0 1 [0] = false :=
  smoother_fallback_unreachable 1 [0] 0 (by decide)
    (by intro b hb; simp at hb; omega) (by decide)

unseal Rat.add Rat.mul Rat.inv Rat.sub Rat.ofScientific in
/-- Claim C2, counterexample: frame 1 of a 3-frame single-scene run has its
full neighbor window inside the scene and the sequence, yet the smoothed
pixel (38, the uint8 truncation) differs from the literal weighted sum
0.15*255 + 0.7*0 + 0.15*0 = 38.25 of the tight masks. -/
theorem smoother_interior_exact_sum_cex :
    (scene_range 1 [0] 3).1 ≤ 1 - 1 ∧ 1 + 1 < (scene_range 1 [0] 3).2 ∧
    ((smoothed_pixel 3 [0] masks_step 1 0 0 : ℚ) ≠
      0.15 * (masks_step 0 0 0 : ℚ) + 0.7 * (masks_step 1 0 0 : ℚ)
        + 0.15 * (masks_step 2 0 0 : ℚ)) := by decide

/-- Claim C2, amended: in the interior of a scene (full neighbor window
inside the scene range and the sequence bounds) the sum of the weights
actually used equals 1.0 exactly, and the smoothed mask equals the weighted
sum 0.15/0.70/0.15 of the three tight masks truncated to an integer (the
uint8 cast of the source), the clamp to [0, 255] being inert for tight
masks with uint8 values. -/
theorem smoother_interior_renormalization (n : Nat) (bs : List Nat)
    (m : Nat → Nat → Nat → Nat) (i x y : Nat)
    (h1 : 1 ≤ i) (h2 : i + 1 < n)
    (h3 : (scene_range i bs n).1 ≤ i - 1) (h4 : i + 1 < (scene_range i bs n).2)
    (hm1 : m (i - 1) x y ≤ 255) (hm2 : m i x y ≤ 255) (hm3 : m (i + 1) x y ≤ 255) :
    total_weight i n bs = 1 ∧
    smoothed_pixel n bs m i x y =
      (⌊(0.15 * (m (i - 1) x y : ℚ) + 0.7 * (m i x y : ℚ)
          + 0.15 * (m (i + 1) x y : ℚ))⌋).toNat := by
  have hkm : keep_offset i n (scene_range i bs n) (-1) = true := by
    rw [keep_offset_true_iff]; omega
  have hk0 : keep_offset i n (scene_range i bs n) 0 = true := by
    rw [keep_offset_true_iff]; omega
  have hkp : keep_offset i n (scene_range i bs n) 1 = true := by
    rw [keep_offset_true_iff]; omega
  have hincl : included_offsets i n bs = smoothing_weights := by
    unfold included_offsets smoothing_weights
    simp [List.filter_cons, hkm, hk0, hkp]
  have htot : total_weight i n bs = 1 := by
    rw [total_weight, hincl]
    norm_num [smoothing_weights]
  have hfb : used_fallback i n bs = false := by
    rw [used_fallback, hincl, htot]
    norm_num [smoothing_weights]
  have e1 : ((i : Int) + -1).toNat = i - 1 := by omega
  have e2 : ((i : Int) + 0).toNat = i := by omega
  have e3 : ((i : Int) + 1).toNat = i + 1 := by omega
  have hblend : blended_value n bs m i x y =
      0.15 * (m (i - 1) x y : ℚ) + 0.7 * (m i x y : ℚ)
        + 0.15 * (m (i + 1) x y : ℚ) := by
    rw [blended_value, hincl]
    simp only [smoothing_weights, List.foldl_cons, List.foldl_nil, e1, e2, e3]
    ring
  have c1 : ((m (i - 1) x y : Nat) : ℚ) ≤ 255 := by exact_mod_cast hm1
  have c2 : ((m i x y : Nat) : ℚ) ≤ 255 := by exact_mod_cast hm2
  have c3 : ((m (i + 1) x y : Nat) : ℚ) ≤ 255 := by exact_mod_cast hm3
  have h0le : (0 : ℚ) ≤ blended_value n bs m i x y := by
    rw [hblend]; positivity
  have hle : blended_value n bs m i x y ≤ 255 := by
    rw [hblend]; linarith
  refine ⟨htot, ?_⟩
  rw [smoothed_pixel, hfb]
  simp only [Bool.false_eq_true, if_false, htot, div_one]
  rw [max_eq_right h0le, min_eq_right hle, hblend]

/-- Witness for the amended C2 on a concrete interior frame of a constant
mask sequence. -/
theorem smoother_interior_renormalization_wit :
    total_weight 1 3 [0] = 1 ∧
    smoothed_pixel 3 [0] masks_hundred 1 0 0 =
      (⌊(0.15 * (masks_hundred (1 - 1) 0 0 : ℚ) + 0.7 * (masks_hundred 1 0 0 : ℚ)
          + 0.15 * (masks_hundred (1 + 1) 0 0 : ℚ))⌋).toNat :=
  smoother_interior_renormalization 3 [0] masks_hundred 1 0 0 (by decide)
    (by decide) (by decide) (by decide) (by decide) (by decide) (by decide)

/-- The blended sum only reads the mask at the included neighbor indices. -/
lemma blended_value_congr (n : Nat) (bs : List Nat)
    (m₁ m₂ : Nat → Nat → Nat → Nat) (i x y : Nat)
    (h : ∀ p ∈ included_offsets i n bs,
      m₁ ((i : Int) + p.1).toNat x y = m₂ ((i : Int) + p.1).toNat x y) :
    blended_value n bs m₁ i x y = blended_value n bs m₂ i x y := by
  unfold blended_value
  suffices hgen : ∀ (l : List (Int × ℚ)) (s : ℚ),
      (∀ p ∈ l, m₁ ((i : Int) + p.1).toNat x y = m₂ ((i : Int) + p.1).toNat x y) →
      l.foldl (fun s p => s + ((m₁ ((i : Int) + p.1).toNat x y : Nat) : ℚ) * p.2) s
        = l.foldl (fun s p => s + ((m₂ ((i : Int) + p.1).toNat x y : Nat) : ℚ) * p.2) s by
    exact hgen _ 0 h
  intro l
  induction l with
  | nil => intro s _; rfl
  | cons p t ih =>
      intro s hp
      simp only [List.foldl_cons]
      rw [hp p (List.mem_cons_self p t)]
      exact ih _ (fun q hq => hp q (List.mem_cons_of_mem p hq))

/-- For a sorted boundary list containing i+1, the smoothed output at i+1
does not read the mask at index i. -/
lemma smoothed_pixel_boundary_indep (n : Nat) (bs : List Nat) (i x y : Nat)
    (m₁ m₂ : Nat → Nat → Nat → Nat)
    (hpw : List.Pairwise (· < ·) bs) (hb : i + 1 ∈ bs)
    (hm : ∀ j, j ≠ i → m₁ j = m₂ j) :
    smoothed_pixel n bs m₁ (i + 1) x y = smoothed_pixel n bs m₂ (i + 1) x y := by
  have hstart : i + 1 ≤ scene_start (i + 1) bs :=
    le_scene_start' (i + 1) (i + 1) bs hpw hb le_rfl
  have hkm : keep_offset (i + 1) n (scene_range (i + 1) bs n) (-1) = false := by
    rw [← Bool.not_eq_true, keep_offset_true_iff]
    simp only [scene_range]
    omega
  have hidx : ∀ p ∈ included_offsets (i + 1) n bs,
      m₁ (((i + 1 : Nat) : Int) + p.1).toNat x y
        = m₂ (((i + 1 : Nat) : Int) + p.1).toNat x y := by
    intro p hp
    have hmem := List.mem_filter.1 hp
    have hpin : p ∈ smoothing_weights := hmem.1
    have hkeep : keep_offset (i + 1) n (scene_range (i + 1) bs n) p.1 = true := by
      simpa using hmem.2
    simp only [smoothing_weights, List.mem_cons, List.mem_singleton,
      List.not_mem_nil, or_false] at hpin
    rcases hpin with rfl | rfl | rfl
    · rw [hkm] at hkeep
      exact absurd hkeep (by simp)
    · have : (((i + 1 : Nat) : Int) + 0).toNat = i + 1 := by omega
      rw [this, hm (i + 1) (by omega)]
    · have : (((i + 1 : Nat) : Int) + 1).toNat = i + 2 := by omega
      rw [this, hm (i + 2) (by omega)]
  have hbv : blended_value n bs m₁ (i + 1) x y = blended_value n bs m₂ (i + 1) x y :=
    blended_value_congr n bs m₁ m₂ (i + 1) x y hidx
  cases hf : used_fallback (i + 1) n bs with
  | true => simp [smoothed_pixel, hf, hm (i + 1) (by omega)]
  | false => simp [smoothed_pixel, hf, hbv]

/-- Claim C1: no cross-scene blending — when the detector marks i+1 as a
scene boundary, the smoothed mask at i+1 is independent of the tight mask
at i: two mask sequences differing only at index i smooth to identical
output at i+1. -/
theorem smoother_no_cross_scene_blend (H W n : Nat) (lum : Nat → Nat → Nat → ℚ)
    (thr : ℚ) (i x y : Nat) (m₁ m₂ : Nat → Nat → Nat → Nat)
    (hb : i + 1 ∈ detect_scene_changes H W n lum thr)
    (hm : ∀ j, j ≠ i → m₁ j = m₂ j) :
    smoothed_pixel n (detect_scene_changes H W n lum thr) m₁ (i + 1) x y =
    smoothed_pixel n (detect_scene_changes H W n lum thr) m₂ (i + 1) x y :=
  smoothed_pixel_boundary_indep n (detect_scene_changes H W n lum thr) i x y
    m₁ m₂ (detect_scene_changes_pairwise H W n lum thr) hb hm

unseal Rat.add Rat.mul Rat.inv Rat.sub Rat.ofScientific in
/-- Witness for C1: a concrete 2-frame run with a hard cut between frames 0
and 1; perturbing the tight mask of frame 0 leaves the smoothed frame 1
unchanged. -/
theorem smoother_no_cross_scene_blend_wit :
    smoothed_pixel 2 (detect_scene_changes 1 1 2 lum_cut 25) masks_one (0 + 1) 0 0 =
    smoothed_pixel 2 (detect_scene_changes 1 1 2 lum_cut 25) masks_two (0 + 1) 0 0 :=
  smoother_no_cross_scene_blend 1 1 2 lum_cut 25 0 0 0 masks_one masks_two
    (by decide)
    (fun j hj => by funext a b; simp [masks_one, masks_two, hj])

/-- Pass 1 succeeds on a prefix whose frames the oracle all accepts. -/
lemma pass_one_ok_of_prefix (H W : Nat) (oracle : Nat → Except String (Nat → Nat → Nat))
    (invert : Bool) :
    ∀ k : Nat, (∀ j, j < k → ∃ c, oracle j = Except.ok c) →
      ∃ l, pass_one H W oracle invert k = Except.ok l := by
  intro k
  induction k with
  | zero => exact fun _ => ⟨[], rfl⟩
  | succ m ih =>
      intro hok
      rcases ih (fun j hj => hok j (Nat.lt_succ_of_lt hj)) with ⟨l, hl⟩
      rcases hok m (Nat.lt_succ_self m) with ⟨c, hc⟩
      exact ⟨l ++ [frame_mask H W c invert], by simp [pass_one, hl, hc]⟩

/-- Pass 1 stops at the first failing frame and reports its index. -/
lemma pass_one_error_at (H W : Nat) (oracle : Nat → Except String (Nat → Nat → Nat))
    (invert : Bool) (i : Nat) (e : String)
    (he : oracle i = Except.error e)
    (hok : ∀ j, j < i → ∃ c, oracle j = Except.ok c) :
    ∀ k : Nat, i < k → pass_one H W oracle invert k = Except.error (i, e) := by
  intro k
  induction k with
  | zero => omega
  | succ m ih =>
      intro hik
      rcases Nat.lt_succ_iff_lt_or_eq.1 hik with him | rfl
      · simp [pass_one, ih him]
      · rcases pass_one_ok_of_prefix H W oracle invert i hok with ⟨l, hl⟩
        simp [pass_one, hl, he]

/-- Claim C7: if the segmentation oracle fails on some frame i of pass 1
(all earlier frames succeeding), the whole run fails with exit code 1 and
the source's diagnostic line, which carries the 1-based frame index; the
result is the same for every luminance input, so scene-cut detection and
pass-2 smoothing never influence it — neither stage is performed. -/
theorem pass_one_failure_fatal (H W n : Nat)
    (oracle : Nat → Except String (Nat → Nat → Nat))
    (lum : Nat → Nat → Nat → ℚ) (invert : Bool) (thr : ℚ) (i : Nat) (e : String)
    (hi : i < n) (he : oracle i = Except.error e)
    (hok : ∀ j, j < i → ∃ c, oracle j = Except.ok c) :
    process_cutout H W n oracle lum invert thr =
      CutoutResult.fail 1 ("ERROR: Frame " ++ toString (i + 1) ++ "/" ++ toString n
        ++ " processing failed: " ++ e) := by
  unfold process_cutout
  rw [pass_one_error_at H W oracle invert i e he hok n hi]

/-- Witness for C7: a 3-frame run whose oracle fails at frame 1 exits with
code 1 and the diagnostic naming frame 2 of 3, for an arbitrary luminance
input. -/
theorem pass_one_failure_fatal_wit :
    process_cutout 1 1 3 oracle_boom lum_zero false 25 =
      CutoutResult.fail 1 ("ERROR: Frame " ++ toString (1 + 1) ++ "/" ++ toString 3
        ++ " processing failed: " ++ "boom") :=
  pass_one_failure_fatal 1 1 3 oracle_boom lum_zero false 25 1 "boom"
    (by decide) rfl
    (fun j hj => by
      interval_cases j
      exact ⟨fun _ _ => 0, rfl⟩)
